import Mathlib

/-
Verification of the nfa101 automata-construction core.

The development shallowly embeds the repository's three iterations of the
construction core:

* `anfa.rs` — the ref-style augmented NFA (`ANFA`, `AutomataRef`) whose
  composition operators take explicit refs and guard the dangling-final-state
  precondition;
* `compilers/forward_compiler.rs` — the stack-style compiler (`ForwardCompiler`)
  acting on a machine that carries the state table together with a
  caller-maintained operand-ref stack (`automata_refs`), plus the dual
  (bidirectional) compiler of `compilers/bidirectional_compiler.rs`;
* `accept.rs` / `from.rs` — the `FA` iteration with hash-map transition
  records, of which `from::star` is relevant here.

Rust `Vec<T>` is modelled as `List T`, struct mutation as explicit state
passing (each operation returns its updated machine), `Result<T, &str>` as
`Except String T`.  `Vec` indexing `v[i]` is modelled with `List.getD i []`
(resp. `List.set`); the Rust code panics on an out-of-range index, so theorems
about successful calls carry the corresponding in-range hypotheses.  An
operation that errors returns no machine, mirroring the source's early
`return Err(..)` before any mutation.
-/

/-! ## The ref-style ANFA of `anfa.rs` -/

abbrev QId := Nat

/-- One transition `(label, target)`: `None` is an epsilon label (`anfa.rs` `DeltaQ`
entries are `(Option<char>, QId)` pairs). -/
abbrev TransitionA := Option Char × QId

/-- The transition record of a single state (`anfa.rs` type `DeltaQ = Vec<(Option<char>, QId)>`). -/
abbrev DeltaQ := List TransitionA

/-- The state table (`anfa.rs` type `Delta = Vec<DeltaQ>`), indexed by `QId`. -/
abbrev Delta := List DeltaQ

/-- `AutomataRef` of `anfa.rs`: entry state `q0` and (dangling) final state `f` of a fragment. -/
structure AutomataRef where
  q0 : QId
  f : QId
deriving DecidableEq, Repr

/-- `ANFA` of `anfa.rs`: the owned state table and the optional finalized entry/exit pair. -/
structure ANFA where
  delta : Delta
  q0 : Option QId
  f : Option QId
deriving DecidableEq, Repr

/-- `delta[i].push(t)` on the state table: append one transition to record `i`.
Out of range this is a no-op; the corresponding Rust indexing would panic, and
theorems assume in-range indices where it matters. -/
def pushAt (d : Delta) (i : QId) (t : TransitionA) : Delta :=
  d.set i (d.getD i [] ++ [t])

/-- `ANFA::new`. -/
def ANFA.new : ANFA := ⟨[], none, none⟩

/-- `ANFA::in_and_fin`: copy the ref's `q0`/`f` into the automaton's own fields; always `Ok`. -/
def ANFA.in_and_fin (m : ANFA) (machine_ref_a : AutomataRef) : Except String ANFA :=
  Except.ok ⟨m.delta, some machine_ref_a.q0, some machine_ref_a.f⟩

/-- `ANFA::expr_0`: append two empty states; ref is `(q0, q0+1)`. -/
def ANFA.expr_0 (m : ANFA) : Except String (ANFA × AutomataRef) :=
  Except.ok (⟨m.delta ++ [[], []], m.q0, m.f⟩, ⟨m.delta.length, m.delta.length + 1⟩)

/-- `ANFA::expr_1`: append one empty state; ref is `(q0, q0)`. -/
def ANFA.expr_1 (m : ANFA) : Except String (ANFA × AutomataRef) :=
  Except.ok (⟨m.delta ++ [[]], m.q0, m.f⟩, ⟨m.delta.length, m.delta.length⟩)

/-- `ANFA::expr_a`: append a state with one labeled edge to a fresh empty final state. -/
def ANFA.expr_a (m : ANFA) (c : Char) : Except String (ANFA × AutomataRef) :=
  Except.ok (⟨m.delta ++ [[(some c, m.delta.length + 1)], []], m.q0, m.f⟩,
    ⟨m.delta.length, m.delta.length + 1⟩)

/-- `ANFA::concatenate`: require both final records empty, then push an epsilon
edge from `a.f` to `b.q0`; result ref `(a.q0, b.f)`. -/
def ANFA.concatenate (m : ANFA) (machine_ref_a machine_ref_b : AutomataRef) :
    Except String (ANFA × AutomataRef) :=
  if (m.delta.getD machine_ref_a.f []).length = 0 ∧
      (m.delta.getD machine_ref_b.f []).length = 0 then
    Except.ok (⟨pushAt m.delta machine_ref_a.f (none, machine_ref_b.q0), m.q0, m.f⟩,
      ⟨machine_ref_a.q0, machine_ref_b.f⟩)
  else
    Except.error "Final states of machine_ref_a and machine_ref_b can NOT have transitions"

/-- `ANFA::star`: require the final record empty; append entry, fork and final
states, wire the fork to `a.q0` and the new final, patch `a.f` back to the fork. -/
def ANFA.star (m : ANFA) (machine_ref_a : AutomataRef) : Except String (ANFA × AutomataRef) :=
  if (m.delta.getD machine_ref_a.f []).length = 0 then
    Except.ok
      (⟨pushAt
          (pushAt
            (pushAt
              (pushAt (m.delta ++ [[], [], []]) m.delta.length (none, m.delta.length + 1))
              (m.delta.length + 1) (none, machine_ref_a.q0))
            (m.delta.length + 1) (none, m.delta.length + 2))
          machine_ref_a.f (none, m.delta.length + 1),
        m.q0, m.f⟩,
       ⟨m.delta.length, m.delta.length + 2⟩)
  else
    Except.error "Final state of machine_ref_a can NOT have transitions"

/-- `ANFA::union`: require both final records empty; append a fork to `a.q0`/`b.q0`
and a new final state, patch `a.f` and `b.f` to the new final. -/
def ANFA.union (m : ANFA) (machine_ref_a machine_ref_b : AutomataRef) :
    Except String (ANFA × AutomataRef) :=
  if (m.delta.getD machine_ref_a.f []).length = 0 ∧
      (m.delta.getD machine_ref_b.f []).length = 0 then
    Except.ok
      (⟨pushAt
          (pushAt (m.delta ++ [[(none, machine_ref_a.q0), (none, machine_ref_b.q0)], []])
            machine_ref_a.f (none, m.delta.length + 1))
          machine_ref_b.f (none, m.delta.length + 1),
        m.q0, m.f⟩,
       ⟨m.delta.length, m.delta.length + 1⟩)
  else
    Except.error "Final states of machine_ref_a and machine_ref_b can NOT have transitions"

/-! ## The table invariant: at most two outgoing edges, forks are epsilon-only -/

/-- A well-formed transition record: at most two outgoing edges, and a record with
exactly two edges has both edges unlabeled (epsilon). -/
def goodQ (q : DeltaQ) : Prop := q.length ≤ 2 ∧ (q.length = 2 → ∀ t ∈ q, t.1 = none)

/-- Every record of the table is well-formed. -/
def goodDelta (d : Delta) : Prop := ∀ q ∈ d, goodQ q

/-- The reachable machines of `anfa.rs`: start from `ANFA::new`, then apply any
sequence of primitive builders, composition operators and finalization.  A
composition step records a successful (`Ok`, non-panicking) call: the operand
refs' final states are in range — the Rust code panics on an out-of-range
index — and the call returned the new machine. -/
inductive Reached : ANFA → Prop where
  | new : Reached ANFA.new
  | e0 {m m' : ANFA} {r : AutomataRef} (h : Reached m)
      (he : m.expr_0 = Except.ok (m', r)) : Reached m'
  | e1 {m m' : ANFA} {r : AutomataRef} (h : Reached m)
      (he : m.expr_1 = Except.ok (m', r)) : Reached m'
  | ea {m m' : ANFA} {r : AutomataRef} (c : Char) (h : Reached m)
      (he : m.expr_a c = Except.ok (m', r)) : Reached m'
  | cat {m m' : ANFA} {r : AutomataRef} (a b : AutomataRef) (h : Reached m)
      (hfa : a.f < m.delta.length) (hfb : b.f < m.delta.length)
      (he : m.concatenate a b = Except.ok (m', r)) : Reached m'
  | star {m m' : ANFA} {r : AutomataRef} (a : AutomataRef) (h : Reached m)
      (hfa : a.f < m.delta.length)
      (he : m.star a = Except.ok (m', r)) : Reached m'
  | uni {m m' : ANFA} {r : AutomataRef} (a b : AutomataRef) (h : Reached m)
      (hfa : a.f < m.delta.length) (hfb : b.f < m.delta.length)
      (he : m.union a b = Except.ok (m', r)) : Reached m'
  | fin {m m' : ANFA} {r : AutomataRef} (h : Reached m)
      (he : m.in_and_fin r = Except.ok m') : Reached m'

/-! ## Primitive-builder sequences (for associativity of concatenation) -/

/-- One primitive builder call of `anfa.rs`: `expr_0`, `expr_1` or `expr_a c`. -/
inductive Prim where
  | e0 : Prim
  | e1 : Prim
  | ea : Char → Prim
deriving DecidableEq, Repr

/-- Apply one primitive builder to a machine. -/
def runPrim (m : ANFA) : Prim → Except String (ANFA × AutomataRef)
  | Prim.e0 => m.expr_0
  | Prim.e1 => m.expr_1
  | Prim.ea c => m.expr_a c

/-- Build three fragments by primitive calls in a fresh machine, then concatenate
as `(a ⋅ b) ⋅ c`. -/
def concatLeftAssoc (p1 p2 p3 : Prim) : Except String (ANFA × AutomataRef) := do
  let (m1, ra) ← runPrim ANFA.new p1
  let (m2, rb) ← runPrim m1 p2
  let (m3, rc) ← runPrim m2 p3
  let (m4, rab) ← m3.concatenate ra rb
  m4.concatenate rab rc

/-- Build three fragments by primitive calls in a fresh machine, then concatenate
as `a ⋅ (b ⋅ c)`. -/
def concatRightAssoc (p1 p2 p3 : Prim) : Except String (ANFA × AutomataRef) := do
  let (m1, ra) ← runPrim ANFA.new p1
  let (m2, rb) ← runPrim m1 p2
  let (m3, rc) ← runPrim m2 p3
  let (m4, rbc) ← m3.concatenate rb rc
  m4.concatenate ra rbc

/-! ## The stack-style compiler of `compilers/forward_compiler.rs` -/

/-- A transition record of the stack-style crate iteration: one optional label and
up to two destinations (`(Option<char>, [Option<QId>; 2])`). -/
abbrev SDeltaQ := Option Char × (Option QId × Option QId)

/-- Modelled from the spec: the stack-style crate's `ANFA` struct itself is not under
`src/` (only its methods in `forward_compiler.rs` and its callers are).  Per the
spec the automaton owns the append-only state table and, in stack-style usage, a
caller-maintained operand stack of live refs; the field shapes are fixed by the
uses in `forward_compiler.rs` (`delta` of `(Option<char>, [Option<QId>; 2])`
records, `automata_refs` of `[QId; 2]` entry/exit pairs, both growing by `push`
and the stack shrinking by `pop` from the end). -/
structure SANFA where
  delta : List SDeltaQ
  automata_refs : List (QId × QId)
deriving DecidableEq, Repr

/-- Modelled from the spec: `ANFA::new` of the stack-style iteration starts with an
empty table and an empty operand stack. -/
def SANFA.new : SANFA := ⟨[], []⟩

/-- `Vec::pop` on the operand-ref stack: take the last element, or `None` when empty. -/
def popRef (xs : List (QId × QId)) : Option ((QId × QId) × List (QId × QId)) :=
  match xs.getLast? with
  | none => none
  | some r => some (r, xs.dropLast)

/-- `ForwardCompiler::expr_0`: push two non-transitioning states and one ref. -/
def ForwardCompiler.expr_0 (anfa : SANFA) : Except String SANFA :=
  Except.ok ⟨anfa.delta ++ [(none, (none, none)), (none, (none, none))],
    anfa.automata_refs ++ [(anfa.delta.length, anfa.delta.length + 1)]⟩

/-- `ForwardCompiler::expr_1`: push one final state and one ref with `q0 = f`. -/
def ForwardCompiler.expr_1 (anfa : SANFA) : Except String SANFA :=
  Except.ok ⟨anfa.delta ++ [(none, (none, none))],
    anfa.automata_refs ++ [(anfa.delta.length, anfa.delta.length)]⟩

/-- `ForwardCompiler::expr_a`: push a state transitioning to a fresh final state
along `c`, and one ref. -/
def ForwardCompiler.expr_a (anfa : SANFA) (c : Char) : Except String SANFA :=
  Except.ok ⟨anfa.delta ++ [(some c, (some (anfa.delta.length + 1), none)),
      (none, (none, none))],
    anfa.automata_refs ++ [(anfa.delta.length, anfa.delta.length + 1)]⟩

/-- `ForwardCompiler::from_expr_0`. -/
def ForwardCompiler.from_expr_0 : Except String SANFA :=
  match ForwardCompiler.expr_0 SANFA.new with
  | Except.ok machine_a => Except.ok machine_a
  | Except.error e => Except.error e

/-- `ForwardCompiler::from_expr_1`. -/
def ForwardCompiler.from_expr_1 : Except String SANFA :=
  match ForwardCompiler.expr_1 SANFA.new with
  | Except.ok machine_a => Except.ok machine_a
  | Except.error e => Except.error e

/-- `ForwardCompiler::from_expr_a`. -/
def ForwardCompiler.from_expr_a (c : Char) : Except String SANFA :=
  match ForwardCompiler.expr_a SANFA.new c with
  | Except.ok machine_a => Except.ok machine_a
  | Except.error e => Except.error e

/-- `ForwardCompiler::concatenate`: length check on the ref stack, two pops, then
overwrite (`delta[machine_a_f] = ..`, no dangling-final check) and push the
combined ref. -/
def ForwardCompiler.concatenate (anfa : SANFA) : Except String SANFA :=
  match anfa.automata_refs.length with
  | 0 => Except.error "Concatenation requires two operands."
  | 1 => Except.error "Concatenation requires two operands."
  | _ + 2 =>
    match popRef anfa.automata_refs with
    | none => Except.error "Concatenation requires two operands. (Race condition.)"
    | some ((machine_b_q0, machine_b_f), rest1) =>
      match popRef rest1 with
      | none => Except.error "Concatenation requires two operands. (Race condition.)"
      | some ((machine_a_q0, machine_a_f), rest2) =>
        Except.ok ⟨anfa.delta.set machine_a_f (none, (some machine_b_q0, none)),
          rest2 ++ [(machine_a_q0, machine_b_f)]⟩

/-- `ForwardCompiler::star`: length check on the ref stack, one pop, push entry,
fork and final states, overwrite the operand's final record (no dangling-final
check), push the new ref. -/
def ForwardCompiler.star (anfa : SANFA) : Except String SANFA :=
  match anfa.automata_refs.length with
  | 0 => Except.error "Star requires one operand."
  | _ + 1 =>
    match popRef anfa.automata_refs with
    | none => Except.error "Star requires one operand. (Race condition.)"
    | some ((machine_a_q0, machine_a_f), rest) =>
      Except.ok ⟨(anfa.delta ++
          [(none, (some (anfa.delta.length + 1), none)),
           (none, (some machine_a_q0, some (anfa.delta.length + 2))),
           (none, (none, none))]).set machine_a_f
            (none, (some (anfa.delta.length + 1), none)),
        rest ++ [(anfa.delta.length, anfa.delta.length + 2)]⟩

/-- `ForwardCompiler::union`: NOTE the length check is on `anfa.delta.len()`, not on
the operand-ref stack; then two pops, push fork and final states, overwrite both
operands' final records, push the new ref. -/
def ForwardCompiler.union (anfa : SANFA) : Except String SANFA :=
  match anfa.delta.length with
  | 0 => Except.error "Union requires two operands."
  | 1 => Except.error "Union requires two operands."
  | _ + 2 =>
    match popRef anfa.automata_refs with
    | none => Except.error "Union requires two operands. (Race condition.)"
    | some ((machine_b_q0, machine_b_f), rest1) =>
      match popRef rest1 with
      | none => Except.error "Union requires two operands. (Race condition.)"
      | some ((machine_a_q0, machine_a_f), rest2) =>
        Except.ok
          ⟨((anfa.delta ++
              [(none, (some machine_a_q0, some machine_b_q0)),
               (none, (none, none))]).set machine_a_f
                (none, (some (anfa.delta.length + 1), none))).set machine_b_f
                (none, (some (anfa.delta.length + 1), none)),
            rest2 ++ [(anfa.delta.length, anfa.delta.length + 1)]⟩

/-! ## The dual (bidirectional) compiler of `compilers/bidirectional_compiler.rs` -/

/-- Modelled from the spec: the coverage compiler (`CoverageCompiler`) is declared
in `compilers/mod.rs` and invoked by the dual compiler, but its implementation is
not under `src/`.  Per the spec it is another `Compiler` capability over its own
machine, producing a parallel provenance structure; each of its operations may
fail.  It is modelled as an abstract machine type `σ` with one fallible operation
per `Compiler` method. -/
structure CoverageOps (σ : Type) where
  expr_0 : σ → Except String σ
  expr_1 : σ → Except String σ
  expr_a : σ → Char → Except String σ
  concatenate : σ → Except String σ
  star : σ → Except String σ
  union : σ → Except String σ

/-- `BidirectionalCompiler::expr_0`: call both sides, succeed only if both do,
otherwise surface the forward error first, then the coverage error. -/
def BidirectionalCompiler.expr_0 {σ : Type} (cov : CoverageOps σ) (forward_machine : SANFA)
    (coverage_machine : σ) : Except String (SANFA × σ) :=
  match ForwardCompiler.expr_0 forward_machine, cov.expr_0 coverage_machine with
  | Except.ok f2, Except.ok c2 => Except.ok (f2, c2)
  | Except.error forward_machine_error, _ => Except.error forward_machine_error
  | _, Except.error coverage_machine_error => Except.error coverage_machine_error

/-- `BidirectionalCompiler::expr_1`. -/
def BidirectionalCompiler.expr_1 {σ : Type} (cov : CoverageOps σ) (forward_machine : SANFA)
    (coverage_machine : σ) : Except String (SANFA × σ) :=
  match ForwardCompiler.expr_1 forward_machine, cov.expr_1 coverage_machine with
  | Except.ok f2, Except.ok c2 => Except.ok (f2, c2)
  | Except.error forward_machine_error, _ => Except.error forward_machine_error
  | _, Except.error coverage_machine_error => Except.error coverage_machine_error

/-- `BidirectionalCompiler::expr_a`. -/
def BidirectionalCompiler.expr_a {σ : Type} (cov : CoverageOps σ) (forward_machine : SANFA)
    (coverage_machine : σ) (c : Char) : Except String (SANFA × σ) :=
  match ForwardCompiler.expr_a forward_machine c, cov.expr_a coverage_machine c with
  | Except.ok f2, Except.ok c2 => Except.ok (f2, c2)
  | Except.error forward_machine_error, _ => Except.error forward_machine_error
  | _, Except.error coverage_machine_error => Except.error coverage_machine_error

/-- `BidirectionalCompiler::concatenate`. -/
def BidirectionalCompiler.concatenate {σ : Type} (cov : CoverageOps σ)
    (forward_machine : SANFA) (coverage_machine : σ) : Except String (SANFA × σ) :=
  match ForwardCompiler.concatenate forward_machine, cov.concatenate coverage_machine with
  | Except.ok f2, Except.ok c2 => Except.ok (f2, c2)
  | Except.error forward_machine_error, _ => Except.error forward_machine_error
  | _, Except.error coverage_machine_error => Except.error coverage_machine_error

/-- `BidirectionalCompiler::star`. -/
def BidirectionalCompiler.star {σ : Type} (cov : CoverageOps σ) (forward_machine : SANFA)
    (coverage_machine : σ) : Except String (SANFA × σ) :=
  match ForwardCompiler.star forward_machine, cov.star coverage_machine with
  | Except.ok f2, Except.ok c2 => Except.ok (f2, c2)
  | Except.error forward_machine_error, _ => Except.error forward_machine_error
  | _, Except.error coverage_machine_error => Except.error coverage_machine_error

/-- `BidirectionalCompiler::union`. -/
def BidirectionalCompiler.union {σ : Type} (cov : CoverageOps σ) (forward_machine : SANFA)
    (coverage_machine : σ) : Except String (SANFA × σ) :=
  match ForwardCompiler.union forward_machine, cov.union coverage_machine with
  | Except.ok f2, Except.ok c2 => Except.ok (f2, c2)
  | Except.error forward_machine_error, _ => Except.error forward_machine_error
  | _, Except.error coverage_machine_error => Except.error coverage_machine_error

/-- One logical dual-compiler operation. -/
inductive DualOp where
  | e0 : DualOp
  | e1 : DualOp
  | ea : Char → DualOp
  | cat : DualOp
  | star : DualOp
  | uni : DualOp
deriving DecidableEq, Repr

/-- The forward sub-call of one dual operation. -/
def runFwdOp : DualOp → SANFA → Except String SANFA
  | DualOp.e0 => ForwardCompiler.expr_0
  | DualOp.e1 => ForwardCompiler.expr_1
  | DualOp.ea c => fun anfa => ForwardCompiler.expr_a anfa c
  | DualOp.cat => ForwardCompiler.concatenate
  | DualOp.star => ForwardCompiler.star
  | DualOp.uni => ForwardCompiler.union

/-- The coverage sub-call of one dual operation. -/
def runCovOp {σ : Type} (cov : CoverageOps σ) : DualOp → σ → Except String σ
  | DualOp.e0 => cov.expr_0
  | DualOp.e1 => cov.expr_1
  | DualOp.ea c => fun s => cov.expr_a s c
  | DualOp.cat => cov.concatenate
  | DualOp.star => cov.star
  | DualOp.uni => cov.union

/-- Dispatch one dual-compiler operation. -/
def runDualOp {σ : Type} (cov : CoverageOps σ) : DualOp → SANFA → σ → Except String (SANFA × σ)
  | DualOp.e0 => BidirectionalCompiler.expr_0 cov
  | DualOp.e1 => BidirectionalCompiler.expr_1 cov
  | DualOp.ea c => fun fm cm => BidirectionalCompiler.expr_a cov fm cm c
  | DualOp.cat => BidirectionalCompiler.concatenate cov
  | DualOp.star => BidirectionalCompiler.star cov
  | DualOp.uni => BidirectionalCompiler.union cov

/-- The result-merging shape shared by every `BidirectionalCompiler` method: both
sub-results combine to `Ok` only when both are `Ok`; otherwise the forward error,
then the coverage error, is surfaced — matching the three match arms of the source. -/
def dualCombine {σ : Type} (rf : Except String SANFA) (rc : Except String σ) :
    Except String (SANFA × σ) :=
  match rf, rc with
  | Except.ok f2, Except.ok c2 => Except.ok (f2, c2)
  | Except.error forward_machine_error, _ => Except.error forward_machine_error
  | _, Except.error coverage_machine_error => Except.error coverage_machine_error

/-- A coverage compiler whose operations all succeed without state change
(used to instantiate the dual-compiler theorem on a concrete input). -/
def covUnit : CoverageOps Unit :=
  ⟨fun _ => Except.ok (), fun _ => Except.ok (), fun _ _ => Except.ok (),
   fun _ => Except.ok (), fun _ => Except.ok (), fun _ => Except.ok ()⟩

/-! ## The `FA` iteration: `accept.rs` and `from.rs` -/

/-- A transition record of the `FA` iteration: `HashMap<Option<char>, Vec<usize>>`,
modelled as an association list with unique keys. -/
abbrev FDeltaQ := List (Option Char × List Nat)

/-- The `FA` state table (`Delta = Vec<DeltaQ>`). -/
abbrev FDelta := List FDeltaQ

/-- The `FA` automaton of `lib.rs`/`accept.rs`/`from.rs`: table, initial state and
the set of match states. -/
structure FA where
  delta : FDelta
  q0 : Nat
  f : List Nat
deriving DecidableEq, Repr

/-- `HashMap::get(&k)` on a transition record. -/
def hmGet (mp : FDeltaQ) (k : Option Char) : Option (List Nat) :=
  match mp.find? (fun p => p.1 == k) with
  | none => none
  | some p => some p.2

/-- `HashMap::insert(k, v)`: the previous value at `k` (if any) and the updated map. -/
def hmInsert (mp : FDeltaQ) (k : Option Char) (v : List Nat) :
    Option (List Nat) × FDeltaQ :=
  match mp.find? (fun p => p.1 == k) with
  | some p => (some p.2, mp.map (fun q => if q.1 == k then (q.1, v) else q))
  | none => (none, mp ++ [(k, v)])

/-- The loop body of `from::star` on one record: `get_mut(&None)` and push the
target into the epsilon set if present, else `insert(None, vec![target])` (whose
"old value" sanity error is unreachable after the failed lookup). -/
def hmPushEps (mp : FDeltaQ) (target : Nat) : FDeltaQ :=
  if (mp.find? (fun p => p.1 == none)).isSome then
    mp.map (fun p => if p.1 == none then (p.1, p.2 ++ [target]) else p)
  else mp ++ [(none, [target])]

/-- `accept::literal`: two states, a single `c`-labeled edge from state 0 to match
state 1, mirroring the insert-then-sanity-check of the source. -/
def accept.literal (c : Char) : Except String FA :=
  match hmInsert [] (some c) [1] with
  | (some _, _) => Except.error "Unexpected error, new HashMap somehow had old value"
  | (none, delta_q0) => Except.ok ⟨[delta_q0, []], 0, [1]⟩

/-- `from::star`: set `q0` to the table length, push one fresh record, insert an
epsilon transition to state `0` (hard-coded) into it, add an epsilon transition to
the new `q0` from every previous match state, and append `q0` to the match set. -/
def From.star (machine_a : FA) : Except String FA :=
  match hmInsert ((machine_a.delta ++ [[]]).getD machine_a.delta.length []) none [0] with
  | (some _, _) => Except.error "Unexpected error, new HashMap somehow had old value"
  | (none, mp) =>
    Except.ok ⟨machine_a.f.foldl
        (fun d q => d.set q (hmPushEps (d.getD q []) machine_a.delta.length))
        ((machine_a.delta ++ [[]]).set machine_a.delta.length mp),
      machine_a.delta.length,
      machine_a.f ++ [machine_a.delta.length]⟩

/-! ## Claim-conclusion predicates and concrete machines -/

/-- Conclusion of claim C3 at one operation: the dual call succeeds exactly when
both sub-calls succeed, a forward error is surfaced first, and a coverage error is
surfaced when the forward side succeeded. -/
def C3Concl (σ : Type) (cov : CoverageOps σ) (op : DualOp) (fm : SANFA) (cm : σ) : Prop :=
  ((runDualOp cov op fm cm).isOk = true ↔
      (runFwdOp op fm).isOk = true ∧ (runCovOp cov op cm).isOk = true) ∧
  (∀ e, runFwdOp op fm = Except.error e → runDualOp cov op fm cm = Except.error e) ∧
  (∀ f2 e, runFwdOp op fm = Except.ok f2 → runCovOp cov op cm = Except.error e →
      runDualOp cov op fm cm = Except.error e)

/-- Conclusion of claim C4: concatenation appends no states, gives `a`'s former
final state exactly one epsilon edge to `b.q0`, modifies no other record, and
returns the ref `(a.q0, b.f)`. -/
def C4Concl (m : ANFA) (a b : AutomataRef) : Prop :=
  m.concatenate a b =
      Except.ok (⟨m.delta.set a.f [(none, b.q0)], m.q0, m.f⟩, ⟨a.q0, b.f⟩) ∧
  (m.delta.set a.f [(none, b.q0)]).length = m.delta.length ∧
  (m.delta.set a.f [(none, b.q0)]).getD a.f [] = [(none, b.q0)] ∧
  ∀ i, i ≠ a.f → (m.delta.set a.f [(none, b.q0)]).getD i [] = m.delta.getD i []

/-- Conclusion of claim C5: union appends exactly the fork state and a fresh empty
final state, patches each operand's final record with an epsilon edge to the new
final state, modifies nothing else and returns the ref `(fork, final)`. -/
def C5Concl (m : ANFA) (a b : AutomataRef) : Prop :=
  ∃ d : Delta,
    m.union a b = Except.ok (⟨d, m.q0, m.f⟩, ⟨m.delta.length, m.delta.length + 1⟩) ∧
    d.length = m.delta.length + 2 ∧
    d.getD m.delta.length [] = [(none, a.q0), (none, b.q0)] ∧
    d.getD (m.delta.length + 1) [] = [] ∧
    (a.f ≠ b.f →
      d.getD a.f [] = [(none, m.delta.length + 1)] ∧
      d.getD b.f [] = [(none, m.delta.length + 1)]) ∧
    (a.f = b.f →
      d.getD a.f [] = [(none, m.delta.length + 1), (none, m.delta.length + 1)]) ∧
    ∀ i, i ≠ a.f → i ≠ b.f → i ≠ m.delta.length → i ≠ m.delta.length + 1 →
      d.getD i [] = m.delta.getD i []

/-- Conclusion of claim C6: star appends exactly an entry state pointing at a fork,
the fork pointing at `a.q0` and a fresh empty final state, patches `a.f` with one
epsilon edge to the fork, modifies nothing else and returns `(entry, final)`. -/
def C6Concl (m : ANFA) (a : AutomataRef) : Prop :=
  ∃ d : Delta,
    m.star a = Except.ok (⟨d, m.q0, m.f⟩, ⟨m.delta.length, m.delta.length + 2⟩) ∧
    d.length = m.delta.length + 3 ∧
    d.getD m.delta.length [] = [(none, m.delta.length + 1)] ∧
    d.getD (m.delta.length + 1) [] = [(none, a.q0), (none, m.delta.length + 2)] ∧
    d.getD (m.delta.length + 2) [] = [] ∧
    d.getD a.f [] = [(none, m.delta.length + 1)] ∧
    ∀ i, i ≠ a.f → i ≠ m.delta.length → i ≠ m.delta.length + 1 →
      i ≠ m.delta.length + 2 → d.getD i [] = m.delta.getD i []

/-- Conclusion of claim C10: `from::star` appends exactly one state which becomes
the new `q0`, whose epsilon set is the hard-coded `[0]`, so it re-enters the
operand's start state exactly when that start state is state `0`. -/
def C10Concl (machine_a : FA) : Prop :=
  ∃ machine_b : FA, From.star machine_a = Except.ok machine_b ∧
    machine_b.delta.length = machine_a.delta.length + 1 ∧
    machine_b.q0 = machine_a.delta.length ∧
    hmGet (machine_b.delta.getD machine_b.q0 []) none = some [0] ∧
    ∀ l, hmGet (machine_b.delta.getD machine_b.q0 []) none = some l →
      (machine_a.q0 ∈ l ↔ machine_a.q0 = 0)

/-- A stack-style machine whose single operand ref `(0, 1)` has a final state that
already carries a transition (state 1 has an edge back to state 0). -/
def danglingStackMachine : SANFA :=
  ⟨[(some 'a', (some 1, none)), (none, (some 0, none))], [(0, 1)]⟩

/-- A ref-style machine with a consumed fragment: state 1 (the ref's final state)
already carries a transition. -/
def danglingRefMachine : ANFA :=
  ⟨[[(some 'a', 1)], [(none, 0)]], none, none⟩

/-! ## List helper lemmas -/

theorem listGetD_append_add {α : Type} (d l : List α) (x : α) (k : Nat) :
    (d ++ l).getD (d.length + k) x = l.getD k x := by
  simp [List.getD, List.getElem?_append_right (Nat.le_add_right d.length k),
    Nat.add_sub_cancel_left]

theorem listGetD_append_len {α : Type} (d l : List α) (x : α) :
    (d ++ l).getD d.length x = l.getD 0 x := by
  simpa using listGetD_append_add d l x 0

theorem listGetD_append_lt {α : Type} (d l : List α) (x : α) (i : Nat) (h : i < d.length) :
    (d ++ l).getD i x = d.getD i x := by
  simp [List.getD, List.getElem?_append_left h]

theorem listGetD_set_self {α : Type} (d : List α) (i : Nat) (q : α) (x : α)
    (h : i < d.length) : (d.set i q).getD i x = q := by
  simp [List.getD, List.getElem?_set_eq_of_lt q h]

theorem listGetD_set_ne {α : Type} (d : List α) (i j : Nat) (q : α) (x : α) (h : i ≠ j) :
    (d.set i q).getD j x = d.getD j x := by
  simp [List.getD, List.getElem?_set_ne h]

theorem listGetD_len_le {α : Type} (d : List α) (i : Nat) (x : α) (h : d.length ≤ i) :
    d.getD i x = x := by
  simp [List.getD, List.getElem?_eq_none h]

theorem pushAt_append_add (d l : List DeltaQ) (k : Nat) (t : TransitionA) :
    pushAt (d ++ l) (d.length + k) t = d ++ pushAt l k t := by
  unfold pushAt
  rw [listGetD_append_add, List.set_append_right _ _ (Nat.le_add_right d.length k),
    Nat.add_sub_cancel_left]

theorem pushAt_append_lt (d l : List DeltaQ) (i : Nat) (t : TransitionA) (h : i < d.length) :
    pushAt (d ++ l) i t = pushAt d i t ++ l := by
  unfold pushAt
  rw [listGetD_append_lt _ _ _ _ h, List.set_append_left _ _ h]

/-! ## Characterizations of the successful ref-style operations -/

theorem concatenate_ok (m : ANFA) (a b : AutomataRef)
    (ha : m.delta.getD a.f [] = []) (hb : m.delta.getD b.f [] = []) :
    m.concatenate a b =
      Except.ok (⟨m.delta.set a.f [(none, b.q0)], m.q0, m.f⟩, ⟨a.q0, b.f⟩) := by
  unfold ANFA.concatenate pushAt
  rw [ha, hb]
  simp

theorem star_delta (d : Delta) (aq af : QId) (h : af < d.length) (ha : d.getD af [] = []) :
    pushAt
        (pushAt
          (pushAt (pushAt (d ++ [[], [], []]) d.length (none, d.length + 1))
            (d.length + 1) (none, aq))
          (d.length + 1) (none, d.length + 2))
        af (none, d.length + 1) =
      d.set af [(none, d.length + 1)] ++
        [[(none, d.length + 1)], [(none, aq), (none, d.length + 2)], []] := by
  have e1 : pushAt (d ++ [[], [], []]) d.length (none, d.length + 1) =
      d ++ [[(none, d.length + 1)], [], []] := by
    have := pushAt_append_add d [[], [], []] 0 (none, d.length + 1)
    simpa [pushAt] using this
  have e2 : pushAt (d ++ [[(none, d.length + 1)], [], []]) (d.length + 1) (none, aq) =
      d ++ [[(none, d.length + 1)], [(none, aq)], []] := by
    have := pushAt_append_add d [[(none, d.length + 1)], [], []] 1 (none, aq)
    simpa [pushAt] using this
  have e3 : pushAt (d ++ [[(none, d.length + 1)], [(none, aq)], []]) (d.length + 1)
        (none, d.length + 2) =
      d ++ [[(none, d.length + 1)], [(none, aq), (none, d.length + 2)], []] := by
    have := pushAt_append_add d [[(none, d.length + 1)], [(none, aq)], []] 1
      (none, d.length + 2)
    simpa [pushAt] using this
  have e4 : pushAt (d ++ [[(none, d.length + 1)], [(none, aq), (none, d.length + 2)], []])
        af (none, d.length + 1) =
      d.set af [(none, d.length + 1)] ++
        [[(none, d.length + 1)], [(none, aq), (none, d.length + 2)], []] := by
    rw [pushAt_append_lt _ _ _ _ h]
    unfold pushAt
    rw [ha]
    rfl
  rw [e1, e2, e3, e4]

theorem star_ok (m : ANFA) (a : AutomataRef) (h : a.f < m.delta.length)
    (ha : m.delta.getD a.f [] = []) :
    m.star a =
      Except.ok
        (⟨m.delta.set a.f [(none, m.delta.length + 1)] ++
            [[(none, m.delta.length + 1)],
             [(none, a.q0), (none, m.delta.length + 2)], []],
          m.q0, m.f⟩,
         ⟨m.delta.length, m.delta.length + 2⟩) := by
  unfold ANFA.star
  rw [if_pos (by rw [ha]; rfl), star_delta m.delta a.q0 a.f h ha]

theorem union_delta_ne (d : Delta) (aq bq af bf : QId)
    (hafl : af < d.length) (hbfl : bf < d.length)
    (ha : d.getD af [] = []) (hb : d.getD bf [] = []) (hne : af ≠ bf) :
    pushAt (pushAt (d ++ [[(none, aq), (none, bq)], []]) af (none, d.length + 1))
        bf (none, d.length + 1) =
      (d.set af [(none, d.length + 1)]).set bf [(none, d.length + 1)] ++
        [[(none, aq), (none, bq)], []] := by
  rw [pushAt_append_lt _ _ _ _ hafl]
  have h2 : pushAt d af (none, d.length + 1) = d.set af [(none, d.length + 1)] := by
    unfold pushAt
    rw [ha]
    rfl
  rw [h2, pushAt_append_lt _ _ _ _ (by simpa using hbfl)]
  unfold pushAt
  rw [listGetD_set_ne _ _ _ _ _ hne, hb]
  rfl

theorem union_delta_eq (d : Delta) (aq bq af : QId)
    (hafl : af < d.length) (ha : d.getD af [] = []) :
    pushAt (pushAt (d ++ [[(none, aq), (none, bq)], []]) af (none, d.length + 1))
        af (none, d.length + 1) =
      d.set af [(none, d.length + 1), (none, d.length + 1)] ++
        [[(none, aq), (none, bq)], []] := by
  rw [pushAt_append_lt _ _ _ _ hafl]
  have h2 : pushAt d af (none, d.length + 1) = d.set af [(none, d.length + 1)] := by
    unfold pushAt
    rw [ha]
    rfl
  rw [h2, pushAt_append_lt _ _ _ _ (by simpa using hafl)]
  unfold pushAt
  rw [listGetD_set_self _ _ _ _ hafl, List.set_set]
  rfl

theorem union_ok_ne (m : ANFA) (a b : AutomataRef)
    (hafl : a.f < m.delta.length) (hbfl : b.f < m.delta.length)
    (ha : m.delta.getD a.f [] = []) (hb : m.delta.getD b.f [] = []) (hne : a.f ≠ b.f) :
    m.union a b =
      Except.ok
        (⟨(m.delta.set a.f [(none, m.delta.length + 1)]).set b.f
              [(none, m.delta.length + 1)] ++
            [[(none, a.q0), (none, b.q0)], []],
          m.q0, m.f⟩,
         ⟨m.delta.length, m.delta.length + 1⟩) := by
  unfold ANFA.union
  rw [if_pos (by rw [ha, hb]; exact ⟨rfl, rfl⟩),
    union_delta_ne m.delta a.q0 b.q0 a.f b.f hafl hbfl ha hb hne]

theorem union_ok_eq (m : ANFA) (a b : AutomataRef)
    (hafl : a.f < m.delta.length)
    (ha : m.delta.getD a.f [] = []) (heq : a.f = b.f) :
    m.union a b =
      Except.ok
        (⟨m.delta.set a.f [(none, m.delta.length + 1), (none, m.delta.length + 1)] ++
            [[(none, a.q0), (none, b.q0)], []],
          m.q0, m.f⟩,
         ⟨m.delta.length, m.delta.length + 1⟩) := by
  unfold ANFA.union
  rw [if_pos (by rw [← heq, ha]; exact ⟨rfl, rfl⟩), ← heq,
    union_delta_eq m.delta a.q0 b.q0 a.f hafl ha]

/-! ## Inversion of the successful ref-style operations -/

theorem expr_0_inv {m m' : ANFA} {r : AutomataRef} (h : m.expr_0 = Except.ok (m', r)) :
    m'.delta = m.delta ++ [[], []] := by
  unfold ANFA.expr_0 at h
  injection h with h1
  injection h1 with h2 h3
  rw [← h2]

theorem expr_1_inv {m m' : ANFA} {r : AutomataRef} (h : m.expr_1 = Except.ok (m', r)) :
    m'.delta = m.delta ++ [[]] := by
  unfold ANFA.expr_1 at h
  injection h with h1
  injection h1 with h2 h3
  rw [← h2]

theorem expr_a_inv {m m' : ANFA} {r : AutomataRef} {c : Char}
    (h : m.expr_a c = Except.ok (m', r)) :
    m'.delta = m.delta ++ [[(some c, m.delta.length + 1)], []] := by
  unfold ANFA.expr_a at h
  injection h with h1
  injection h1 with h2 h3
  rw [← h2]

theorem in_and_fin_inv {m m' : ANFA} {r : AutomataRef} (h : m.in_and_fin r = Except.ok m') :
    m'.delta = m.delta := by
  unfold ANFA.in_and_fin at h
  injection h with h1
  rw [← h1]

theorem concatenate_inv {m m' : ANFA} {a b r : AutomataRef}
    (h : m.concatenate a b = Except.ok (m', r)) :
    m.delta.getD a.f [] = [] ∧ m.delta.getD b.f [] = [] ∧
      m'.delta = m.delta.set a.f [(none, b.q0)] := by
  unfold ANFA.concatenate at h
  split at h
  case isTrue hc =>
    have ha := List.length_eq_zero.mp hc.1
    have hb := List.length_eq_zero.mp hc.2
    injection h with h1
    injection h1 with h2 h3
    refine ⟨ha, hb, ?_⟩
    rw [← h2]
    show pushAt m.delta a.f (none, b.q0) = _
    unfold pushAt
    rw [ha]
    rfl
  case isFalse => exact absurd h (by simp)

theorem starOp_inv {m m' : ANFA} {a r : AutomataRef}
    (hf : a.f < m.delta.length) (h : m.star a = Except.ok (m', r)) :
    m.delta.getD a.f [] = [] ∧
      m'.delta = m.delta.set a.f [(none, m.delta.length + 1)] ++
        [[(none, m.delta.length + 1)], [(none, a.q0), (none, m.delta.length + 2)], []] := by
  unfold ANFA.star at h
  split at h
  case isTrue hc =>
    have ha := List.length_eq_zero.mp hc
    injection h with h1
    injection h1 with h2 h3
    refine ⟨ha, ?_⟩
    rw [← h2]
    show pushAt (pushAt (pushAt (pushAt _ _ _) _ _) _ _) a.f _ = _
    rw [star_delta m.delta a.q0 a.f hf ha]
  case isFalse => exact absurd h (by simp)

theorem union_inv {m m' : ANFA} {a b r : AutomataRef}
    (hafl : a.f < m.delta.length) (hbfl : b.f < m.delta.length)
    (h : m.union a b = Except.ok (m', r)) :
    m.delta.getD a.f [] = [] ∧ m.delta.getD b.f [] = [] ∧
      ((a.f ≠ b.f ∧
        m'.delta = (m.delta.set a.f [(none, m.delta.length + 1)]).set b.f
            [(none, m.delta.length + 1)] ++ [[(none, a.q0), (none, b.q0)], []]) ∨
       (a.f = b.f ∧
        m'.delta = m.delta.set a.f [(none, m.delta.length + 1), (none, m.delta.length + 1)] ++
            [[(none, a.q0), (none, b.q0)], []])) := by
  unfold ANFA.union at h
  split at h
  case isTrue hc =>
    have ha := List.length_eq_zero.mp hc.1
    have hb := List.length_eq_zero.mp hc.2
    injection h with h1
    injection h1 with h2 h3
    refine ⟨ha, hb, ?_⟩
    by_cases hne : a.f = b.f
    · right
      refine ⟨hne, ?_⟩
      rw [← h2]
      show pushAt (pushAt _ _ _) b.f _ = _
      rw [← hne, union_delta_eq m.delta a.q0 b.q0 a.f hafl ha]
    · left
      refine ⟨hne, ?_⟩
      rw [← h2]
      show pushAt (pushAt _ _ _) b.f _ = _
      rw [union_delta_ne m.delta a.q0 b.q0 a.f b.f hafl hbfl ha hb hne]
  case isFalse => exact absurd h (by simp)

theorem goodDelta_append {d e : Delta} (hd : goodDelta d) (he : goodDelta e) :
    goodDelta (d ++ e) := by
  intro q hq
  rcases List.mem_append.mp hq with hq | hq
  · exact hd q hq
  · exact he q hq

theorem goodDelta_set {d : Delta} {i : Nat} {q : DeltaQ} (hd : goodDelta d) (hq : goodQ q) :
    goodDelta (d.set i q) := by
  intro x hx
  rcases List.mem_or_eq_of_mem_set hx with hx | hx
  · exact hd x hx
  · rw [hx]
    exact hq

theorem goodQ_nil : goodQ [] := by simp [goodQ]

theorem goodQ_single (t : TransitionA) : goodQ [t] := by simp [goodQ]

theorem goodQ_eps_pair (x y : QId) : goodQ [(none, x), (none, y)] := by
  refine ⟨by simp, ?_⟩
  intro _ t ht
  rcases List.mem_cons.mp ht with rfl | h
  · rfl
  · rcases List.mem_cons.mp h with rfl | h'
    · rfl
    · exact absurd h' (List.not_mem_nil t)


theorem goodDelta_nil : goodDelta [] := fun q hq => absurd hq (List.not_mem_nil q)

theorem goodDelta_cons {q : DeltaQ} {d : Delta} (hq : goodQ q) (hd : goodDelta d) :
    goodDelta (q :: d) := by
  intro x hx
  rcases List.mem_cons.mp hx with rfl | hx
  · exact hq
  · exact hd x hx

/-! ## Claim C8 -/

/-- C8: in every state table reachable by any sequence of primitive and composition
operations starting from a new ANFA, every state's transition record holds at most
two outgoing edges, and a record with exactly two edges has both edges unlabeled
(epsilon). -/
theorem c8_reachable_table_invariant (m : ANFA) (h : Reached m) : goodDelta m.delta := by
  induction h with
  | new => exact goodDelta_nil
  | e0 h he ih =>
    rw [expr_0_inv he]
    exact goodDelta_append ih (goodDelta_cons goodQ_nil (goodDelta_cons goodQ_nil goodDelta_nil))
  | e1 h he ih =>
    rw [expr_1_inv he]
    exact goodDelta_append ih (goodDelta_cons goodQ_nil goodDelta_nil)
  | ea c h he ih =>
    rw [expr_a_inv he]
    exact goodDelta_append ih
      (goodDelta_cons (goodQ_single _) (goodDelta_cons goodQ_nil goodDelta_nil))
  | cat a b h hfa hfb he ih =>
    obtain ⟨ha, hb, hd⟩ := concatenate_inv he
    rw [hd]
    exact goodDelta_set ih (goodQ_single _)
  | star a h hfa he ih =>
    obtain ⟨ha, hd⟩ := starOp_inv hfa he
    rw [hd]
    exact goodDelta_append (goodDelta_set ih (goodQ_single _))
      (goodDelta_cons (goodQ_single _)
        (goodDelta_cons (goodQ_eps_pair _ _) (goodDelta_cons goodQ_nil goodDelta_nil)))
  | uni a b h hfa hfb he ih =>
    obtain ⟨ha, hb, hcase⟩ := union_inv hfa hfb he
    rcases hcase with ⟨hne, hd⟩ | ⟨heq, hd⟩
    · rw [hd]
      exact goodDelta_append
        (goodDelta_set (goodDelta_set ih (goodQ_single _)) (goodQ_single _))
        (goodDelta_cons (goodQ_eps_pair _ _) (goodDelta_cons goodQ_nil goodDelta_nil))
    · rw [hd]
      exact goodDelta_append (goodDelta_set ih (goodQ_eps_pair _ _))
        (goodDelta_cons (goodQ_eps_pair _ _) (goodDelta_cons goodQ_nil goodDelta_nil))
  | fin h he ih =>
    rw [in_and_fin_inv he]
    exact ih

/-- Witness for C8: the table built by `expr_a 'a'` followed by `star` on its ref
satisfies the invariant; the `Reached` hypothesis is discharged by the explicit
construction chain. -/
theorem c8_witness :
    goodDelta [[(some 'a', 1)], [(none, 3)], [(none, 3)], [(none, 0), (none, 4)], []] :=
  c8_reachable_table_invariant
    ⟨[[(some 'a', 1)], [(none, 3)], [(none, 3)], [(none, 0), (none, 4)], []], none, none⟩
    (Reached.star ⟨0, 1⟩ (Reached.ea 'a' Reached.new rfl) (by decide) rfl)

/-! ## Claim C9 -/

/-- C9: `in_and_fin` always returns `Ok`, sets the automaton's `q0`/`f` to the ref's
values, leaves the table unchanged, and a repeated call simply overwrites them, so
the last call's ref determines the automaton's entry/exit. -/
theorem c9_in_and_fin_overwrites (m : ANFA) (r r' : AutomataRef) :
    m.in_and_fin r = Except.ok ⟨m.delta, some r.q0, some r.f⟩ ∧
    (match m.in_and_fin r with
      | Except.ok m2 => m2.in_and_fin r'
      | Except.error e => Except.error e) =
      Except.ok ⟨m.delta, some r'.q0, some r'.f⟩ :=
  ⟨rfl, rfl⟩

/-! ## Claim C4 -/

/-- C4: for live refs `a` and `b` (both final records empty, both in range),
`concatenate` appends no states, gives `a`'s former final state exactly one
unlabeled edge to `b.q0`, modifies no other record, and returns `(a.q0, b.f)`. -/
theorem c4_concatenate_patch (m : ANFA) (a b : AutomataRef)
    (hfa : a.f < m.delta.length) (_hfb : b.f < m.delta.length)
    (ha : m.delta.getD a.f [] = []) (hb : m.delta.getD b.f [] = []) :
    C4Concl m a b := by
  refine ⟨concatenate_ok m a b ha hb, by simp, listGetD_set_self _ _ _ _ hfa, ?_⟩
  intro i hi
  exact listGetD_set_ne _ _ _ _ _ (Ne.symm hi)

/-- Witness for C4 on the table built by `expr_a 'a'; expr_a 'b'`. -/
theorem c4_witness :
    C4Concl ⟨[[(some 'a', 1)], [], [(some 'b', 3)], []], none, none⟩ ⟨0, 1⟩ ⟨2, 3⟩ :=
  c4_concatenate_patch _ _ _ (by decide) (by decide) (by decide) (by decide)

theorem getD_append_of_len0 {α : Type} (d l : List α) (x : α) (n : Nat)
    (h : d.length = n) : (d ++ l).getD n x = l.getD 0 x := by
  subst h
  exact listGetD_append_len d l x

theorem getD_append_of_len {α : Type} (d l : List α) (x : α) (n k : Nat)
    (h : d.length = n) : (d ++ l).getD (n + k) x = l.getD k x := by
  subst h
  exact listGetD_append_add d l x k

/-! ## Claim C5 -/

/-- C5: for live refs `a` and `b`, `union` appends exactly two new states — a fork
with two unlabeled edges to `a.q0` and `b.q0` and a fresh empty final state —
patches each operand's final record with one unlabeled edge to the new final
state (two edges on the shared record when `a.f = b.f`), modifies no other
existing record, and returns the ref `(fork, final)`. -/
theorem c5_union_shape (m : ANFA) (a b : AutomataRef)
    (hfa : a.f < m.delta.length) (hfb : b.f < m.delta.length)
    (ha : m.delta.getD a.f [] = []) (hb : m.delta.getD b.f [] = []) :
    C5Concl m a b := by
  by_cases hne : a.f = b.f
  · refine ⟨_, union_ok_eq m a b hfa ha hne, ?_, ?_, ?_, ?_, ?_, ?_⟩
    · simp
    · rw [getD_append_of_len0 _ _ _ _ (by simp)]
      rfl
    · rw [getD_append_of_len _ _ _ _ 1 (by simp)]
      rfl
    · intro hne2
      exact absurd hne hne2
    · intro _
      rw [listGetD_append_lt _ _ _ _ (by simpa using hfa)]
      exact listGetD_set_self _ _ _ _ hfa
    · intro i hia hib hin hin1
      rcases Nat.lt_or_ge i m.delta.length with hlt | hge
      · rw [listGetD_append_lt _ _ _ _ (by simpa using hlt)]
        exact listGetD_set_ne _ _ _ _ _ (Ne.symm hia)
      · have s1 : m.delta.length < i := Nat.lt_of_le_of_ne hge (Ne.symm hin)
        have h2 : m.delta.length + 2 ≤ i := Nat.lt_of_le_of_ne s1 (Ne.symm hin1)
        rw [listGetD_len_le _ _ _ (by simpa using h2), listGetD_len_le _ _ _ hge]
  · refine ⟨_, union_ok_ne m a b hfa hfb ha hb hne, ?_, ?_, ?_, ?_, ?_, ?_⟩
    · simp
    · rw [getD_append_of_len0 _ _ _ _ (by simp)]
      rfl
    · rw [getD_append_of_len _ _ _ _ 1 (by simp)]
      rfl
    · intro _
      constructor
      · rw [listGetD_append_lt _ _ _ _ (by simpa using hfa),
          listGetD_set_ne _ _ _ _ _ (Ne.symm hne)]
        exact listGetD_set_self _ _ _ _ hfa
      · rw [listGetD_append_lt _ _ _ _ (by simpa using hfb)]
        exact listGetD_set_self _ _ _ _ (by simpa using hfb)
    · intro heq
      exact absurd heq hne
    · intro i hia hib hin hin1
      rcases Nat.lt_or_ge i m.delta.length with hlt | hge
      · rw [listGetD_append_lt _ _ _ _ (by simpa using hlt),
          listGetD_set_ne _ _ _ _ _ (Ne.symm hib), listGetD_set_ne _ _ _ _ _ (Ne.symm hia)]
      · have s1 : m.delta.length < i := Nat.lt_of_le_of_ne hge (Ne.symm hin)
        have h2 : m.delta.length + 2 ≤ i := Nat.lt_of_le_of_ne s1 (Ne.symm hin1)
        rw [listGetD_len_le _ _ _ (by simpa using h2), listGetD_len_le _ _ _ hge]

/-- Witness for C5 on the table built by `expr_a 'a'; expr_a 'b'`. -/
theorem c5_witness :
    C5Concl ⟨[[(some 'a', 1)], [], [(some 'b', 3)], []], none, none⟩ ⟨0, 1⟩ ⟨2, 3⟩ :=
  c5_union_shape _ _ _ (by decide) (by decide) (by decide) (by decide)

/-! ## Claim C6 -/

/-- C6: for a live ref `a`, `star` appends exactly three new states — an entry whose
single unlabeled edge goes to a fork, the fork with exactly two unlabeled edges to
`a.q0` and to a fresh empty final state — patches `a.f` with one unlabeled edge to
the fork, modifies no other existing record, and returns the ref `(entry, final)`. -/
theorem c6_star_shape (m : ANFA) (a : AutomataRef) (hfa : a.f < m.delta.length)
    (ha : m.delta.getD a.f [] = []) : C6Concl m a := by
  refine ⟨_, star_ok m a hfa ha, by simp, ?_, ?_, ?_, ?_, ?_⟩
  · rw [getD_append_of_len0 _ _ _ _ (by simp)]
    rfl
  · rw [getD_append_of_len _ _ _ _ 1 (by simp)]
    rfl
  · rw [getD_append_of_len _ _ _ _ 2 (by simp)]
    rfl
  · rw [listGetD_append_lt _ _ _ _ (by simpa using hfa)]
    exact listGetD_set_self _ _ _ _ hfa
  · intro i hia hin hin1 hin2
    rcases Nat.lt_or_ge i m.delta.length with hlt | hge
    · rw [listGetD_append_lt _ _ _ _ (by simpa using hlt)]
      exact listGetD_set_ne _ _ _ _ _ (Ne.symm hia)
    · have s1 : m.delta.length < i := Nat.lt_of_le_of_ne hge (Ne.symm hin)
      have s2 : m.delta.length + 1 < i := Nat.lt_of_le_of_ne s1 (Ne.symm hin1)
      have h3 : m.delta.length + 3 ≤ i := Nat.lt_of_le_of_ne s2 (Ne.symm hin2)
      rw [listGetD_len_le _ _ _ (by simpa using h3), listGetD_len_le _ _ _ hge]

/-- Witness for C6 on the table built by `expr_a 'a'`. -/
theorem c6_witness : C6Concl ⟨[[(some 'a', 1)], []], none, none⟩ ⟨0, 1⟩ :=
  c6_star_shape _ _ (by decide) (by decide)

/-! ## Claim C7 -/

/-- C7: concatenation is associative — for any three fragments built by identical
primitive calls in two fresh machines, `(a ⋅ b) ⋅ c` and `a ⋅ (b ⋅ c)` produce
byte-for-byte identical results (same state table, same ref), both succeed, and
hence the two automata accept exactly the same symbol sequences. -/
theorem c7_concatenation_associative (p1 p2 p3 : Prim) :
    concatLeftAssoc p1 p2 p3 = concatRightAssoc p1 p2 p3 ∧
    (concatLeftAssoc p1 p2 p3).isOk = true := by
  cases p1 <;> cases p2 <;> cases p3 <;> exact ⟨rfl, rfl⟩

/-! ## Claim C1 -/

/-- C1 (amended): the ref-style composition operators of `anfa.rs` fail with the
dangling-state error whenever an operand ref's final record already carries a
transition — `concatenate` and `union` when either operand is dangling, `star`
when its operand is — and, failing, produce no new machine (the source returns
before any mutation, so the table is untouched).  The stack-style
`ForwardCompiler` operators perform no such check (see the counterexample). -/
theorem c1_dangling_state_violation (m : ANFA) (a b : AutomataRef) :
    (m.delta.getD a.f [] ≠ [] ∨ m.delta.getD b.f [] ≠ [] →
      m.concatenate a b =
        Except.error
          "Final states of machine_ref_a and machine_ref_b can NOT have transitions" ∧
      m.union a b =
        Except.error
          "Final states of machine_ref_a and machine_ref_b can NOT have transitions") ∧
    (m.delta.getD a.f [] ≠ [] →
      m.star a = Except.error "Final state of machine_ref_a can NOT have transitions") := by
  constructor
  · intro h
    have hcond : ¬((m.delta.getD a.f []).length = 0 ∧ (m.delta.getD b.f []).length = 0) := by
      rcases h with h | h
      · exact fun hc => h (List.length_eq_zero.mp hc.1)
      · exact fun hc => h (List.length_eq_zero.mp hc.2)
    constructor
    · unfold ANFA.concatenate
      rw [if_neg hcond]
    · unfold ANFA.union
      rw [if_neg hcond]
  · intro h
    have hcond : ¬((m.delta.getD a.f []).length = 0) :=
      fun hc => h (List.length_eq_zero.mp hc)
    unfold ANFA.star
    rw [if_neg hcond]

/-- Witness for C1 on a machine whose ref `(0, 1)` has a consumed (non-empty)
final record. -/
theorem c1_witness :
    danglingRefMachine.concatenate ⟨0, 1⟩ ⟨0, 1⟩ =
      Except.error
        "Final states of machine_ref_a and machine_ref_b can NOT have transitions" ∧
    danglingRefMachine.star ⟨0, 1⟩ =
      Except.error "Final state of machine_ref_a can NOT have transitions" :=
  ⟨((c1_dangling_state_violation danglingRefMachine ⟨0, 1⟩ ⟨0, 1⟩).1
      (Or.inl (by decide))).1,
   (c1_dangling_state_violation danglingRefMachine ⟨0, 1⟩ ⟨0, 1⟩).2 (by decide)⟩

/-- Counterexample to C1 as stated over every composition operation: the
stack-style `ForwardCompiler::star`, applied to a machine whose operand ref's
final state (state 1) already carries a transition, does not return a
dangling-state error — it returns `Ok` and rewrites the table, overwriting the
final record. -/
theorem c1_counterexample :
    danglingStackMachine.delta.getD 1 (none, (none, none)) = (none, (some 0, none)) ∧
    ForwardCompiler.star danglingStackMachine =
      Except.ok ⟨[(some 'a', (some 1, none)), (none, (some 3, none)),
          (none, (some 3, none)), (none, (some 0, some 4)), (none, (none, none))],
        [(2, 4)]⟩ ∧
    (ForwardCompiler.star danglingStackMachine).isOk = true :=
  ⟨rfl, rfl, rfl⟩

/-! ## Claim C2 -/

/-- C2 (code bug): `ForwardCompiler::union` checks `delta.len()` instead of the
operand-ref stack length, so on the machine built by `from_expr_a('a')` — one
live ref on the stack, two states in the table — `union` passes its length check
and fails with the defensive "(Race condition.)" error that the source comments
declare impossible, instead of the insufficient-operands error; `concatenate` on
the same machine reports insufficiency correctly. -/
theorem c2_union_length_check_bug :
    ForwardCompiler.from_expr_a 'a' =
      Except.ok ⟨[(some 'a', (some 1, none)), (none, (none, none))], [(0, 1)]⟩ ∧
    (⟨[(some 'a', (some 1, none)), (none, (none, none))],
        [(0, 1)]⟩ : SANFA).automata_refs.length = 1 ∧
    ForwardCompiler.union
        ⟨[(some 'a', (some 1, none)), (none, (none, none))], [(0, 1)]⟩ =
      Except.error "Union requires two operands. (Race condition.)" ∧
    ForwardCompiler.concatenate
        ⟨[(some 'a', (some 1, none)), (none, (none, none))], [(0, 1)]⟩ =
      Except.error "Concatenation requires two operands." :=
  ⟨rfl, rfl, rfl, rfl⟩

/-! ## Claim C3 -/

/-- C3: every dual-compiler operation returns `Ok` exactly when both the forward
sub-call and the coverage sub-call return `Ok`; when at least one fails, the
forward sub-compiler's error is reported if the forward side failed, otherwise
the coverage sub-compiler's error (call order: forward before coverage). -/
theorem c3_dual_compiler_lockstep (σ : Type) (cov : CoverageOps σ) (op : DualOp)
    (fm : SANFA) (cm : σ) : C3Concl σ cov op fm cm := by
  have key : runDualOp cov op fm cm = dualCombine (runFwdOp op fm) (runCovOp cov op cm) := by
    cases op <;> rfl
  refine ⟨?_, ?_, ?_⟩
  · rcases hf : runFwdOp op fm with ef | f2 <;> rcases hc : runCovOp cov op cm with ec | c2 <;>
      rw [hf, hc] at key <;> simp [key, dualCombine, Except.isOk, Except.toBool]
  · intro e he
    rw [he] at key
    rcases hc : runCovOp cov op cm with ec | c2 <;> rw [hc] at key <;>
      simpa [dualCombine] using key
  · intro f2 e hf hc
    rw [hf, hc] at key
    simpa [dualCombine] using key

/-- Witness for C3: concatenation on an empty forward machine with an
always-succeeding coverage compiler. -/
theorem c3_witness : C3Concl Unit covUnit DualOp.cat SANFA.new () :=
  c3_dual_compiler_lockstep Unit covUnit DualOp.cat SANFA.new ()

/-! ## Claim C10 -/

theorem foldl_set_length {α : Type} (l : List Nat) (g : List α → Nat → α) (d : List α) :
    (l.foldl (fun d q => d.set q (g d q)) d).length = d.length := by
  induction l generalizing d with
  | nil => rfl
  | cons y ys ih =>
    simpa [List.foldl] using ih (d.set y (g d y))

theorem foldl_set_getD_ne {α : Type} (l : List Nat) (g : List α → Nat → α) (d : List α)
    (j : Nat) (x : α) (h : ∀ q ∈ l, q ≠ j) :
    (l.foldl (fun d q => d.set q (g d q)) d).getD j x = d.getD j x := by
  induction l generalizing d with
  | nil => rfl
  | cons y ys ih =>
    simp only [List.foldl]
    rw [ih _ (fun q hq => h q (List.mem_cons_of_mem y hq))]
    exact listGetD_set_ne _ _ _ _ _ (h y (List.mem_cons_self y ys))

/-- C10: `from::star` appends exactly one new state which becomes the result's
`q0`, and that state's epsilon transition targets state index `0` — not
`machine_a.q0` — so the star loop re-enters the operand machine's start state
only when `machine_a.q0` equals `0`.  The hypothesis says the input's match
states are in range (the Rust code would index out of bounds otherwise). -/
theorem c10_from_star_targets_zero (machine_a : FA)
    (hf : ∀ q ∈ machine_a.f, q < machine_a.delta.length) : C10Concl machine_a := by
  have hfresh : ((machine_a.delta ++ [[]]).getD machine_a.delta.length []) = ([] : FDeltaQ) := by
    rw [listGetD_append_len]
    rfl
  have hstar : From.star machine_a =
      Except.ok ⟨machine_a.f.foldl
          (fun d q => d.set q (hmPushEps (d.getD q []) machine_a.delta.length))
          ((machine_a.delta ++ [[]]).set machine_a.delta.length [(none, [0])]),
        machine_a.delta.length, machine_a.f ++ [machine_a.delta.length]⟩ := by
    unfold From.star
    rw [hfresh]
    rfl
  have hrec : (machine_a.f.foldl
        (fun (d : FDelta) (q : Nat) => d.set q (hmPushEps (d.getD q []) machine_a.delta.length))
        ((machine_a.delta ++ [[]]).set machine_a.delta.length [(none, [0])])).getD
          machine_a.delta.length [] = [(none, [0])] := by
    rw [foldl_set_getD_ne _ _ _ _ _ (fun q hq => Nat.ne_of_lt (hf q hq))]
    exact listGetD_set_self _ _ _ _ (by simp)
  refine ⟨_, hstar, ?_, rfl, ?_, ?_⟩
  · rw [foldl_set_length]
    simp
  · rw [hrec]
    rfl
  · intro l hl
    rw [hrec] at hl
    have hl0 : l = [0] := by
      injection hl with h1
      exact h1.symm
    rw [hl0]
    simp

/-- Witness for C10 on the literal machine `accept::literal('a')`; its `q0` is `0`,
so the hard-coded target coincides with re-entering the operand. -/
theorem c10_witness : C10Concl ⟨[[(some 'a', [1])], []], 0, [1]⟩ :=
  c10_from_star_targets_zero _ (by decide)
